import Mathlib

/-!
Verification development for the AShareData read-side reshaping layer
(`src/AShareData/SQLDBReader.py`).

Dates are modelled as natural numbers (ordinal day numbers), report periods
as natural numbers encoded `year * 100 + month` (so the period's month is
`p % 100`), security identifiers as strings, and factor values as integers.
A wide panel (pandas `DataFrame` with a date row index and a security column
index) is modelled as the `Panel` structure below; a missing cell (pandas
`NaN`) is `Option.none`.
-/

namespace AShareData

/-- Association lookup by position: the value of `vals` at the index of the
first occurrence of `k` in `keys`, or `dflt` when `k` is absent (pandas
label-based lookup used by `reindex`). -/
def lookupByKey {α β : Type} [DecidableEq α] (keys : List α) (vals : List β)
    (dflt : β) (k : α) : β :=
  match keys, vals with
  | [], _ => dflt
  | _ :: _, [] => dflt
  | k' :: ks, v :: vs => if k = k' then v else lookupByKey ks vs dflt k

/-- Insert an element into a sorted duplicate-free list, keeping it sorted
and duplicate-free. -/
def insertUniq {α : Type} [LinearOrder α] (x : α) : List α → List α
  | [] => [x]
  | y :: ys => if x < y then x :: y :: ys else if x = y then y :: ys else y :: insertUniq x ys

/-- Sorted deduplication, modelling Python's `sorted(list(set(xs)))` and the
sorted label axes produced by pandas `unstack` / `groupby`. -/
def sortUniq {α : Type} [LinearOrder α] (l : List α) : List α :=
  l.foldr insertUniq []

/-- Minimum of a list of dates, modelling `df.index.min()`; `0` on the empty
list (which the code paths under study never hit). -/
def minimumD (l : List Nat) : Nat :=
  match l with
  | [] => 0
  | x :: xs => xs.foldl min x

/-- Wide panel: pandas DataFrame with a date row index (`rows`), a security
column index (`cols`) and row-major cell data; `none` is a missing cell. -/
structure Panel where
  rows : List Nat
  cols : List String
  data : List (List (Option Int))
deriving DecidableEq, Repr

/-- Bound test for the lower slice `df.loc[start_date:, :]`: keep dates at or
after the bound, keep everything when the bound is absent. -/
def keepFrom (s : Option Nat) (d : Nat) : Bool :=
  match s with
  | none => true
  | some a => a ≤ d

/-- Membership of a date in the inclusive window `[start, end]`, with an
absent bound meaning unbounded on that side. -/
def inWindow (s e : Option Nat) (d : Nat) : Bool :=
  (match s with | none => true | some a => a ≤ d) &&
  (match e with | none => true | some b => d ≤ b)

/-- Modelled from the spec: `utils.select_dates` is not under `src/`; per the
CalendarService contract (spec §4.1) it returns the trading-calendar dates in
the inclusive window `[start, end]`, each bound open-ended when omitted. -/
def selectDates (cal : List Nat) (s e : Option Nat) : List Nat :=
  cal.filter (inWindow s e)

/-- Row of cell data of panel `P` labelled by date `d`; an all-missing row
when `d` is not in the panel's index (pandas `reindex` fill). -/
def lookupRowData (P : Panel) (d : Nat) : List (Option Int) :=
  lookupByKey P.rows P.data (List.replicate P.cols.length none) d

/-- Row reindex `df.reindex(newRows)`: the result's index is `newRows`; rows
already present keep their data, new rows are all-missing. -/
def reindexRows (P : Panel) (newRows : List Nat) : Panel :=
  ⟨newRows, P.cols, newRows.map (lookupRowData P)⟩

/-- Column reindex `df.reindex(newCols, axis=1)`: the result's columns are
`newCols`; columns already present keep their data, new columns are
all-missing, unrequested columns are dropped. -/
def reindexCols (P : Panel) (newCols : List String) : Panel :=
  ⟨P.rows, newCols, P.data.map (fun row => newCols.map (lookupByKey P.cols row none))⟩

/-- One forward-fill step: each missing cell of `row` takes the value carried
in `prev` at the same column position. -/
def ffillStep (prev row : List (Option Int)) : List (Option Int) :=
  List.zipWith (fun p c => match c with | some v => some v | none => p) prev row

/-- Forward-fill of row-major data, top to bottom, carrying the filled
previous row (pandas `DataFrame.ffill`). -/
def ffillData (prev : List (Option Int)) : List (List (Option Int)) → List (List (Option Int))
  | [] => []
  | row :: rest =>
    let row' := ffillStep prev row
    row' :: ffillData row' rest

/-- Forward-fill of a panel: every missing cell takes the most recent
non-missing value above it in its column; cells before the first observation
stay missing. -/
def ffillPanel (P : Panel) : Panel :=
  ⟨P.rows, P.cols, ffillData (List.replicate P.cols.length none) P.data⟩

/-- Lower label slice `df.loc[start_date:, :]` on a date-indexed panel: keep
the rows (with their data) whose date is at or after the bound. -/
def sliceFrom (P : Panel) (s : Option Nat) : Panel :=
  let kept := (P.rows.zip P.data).filter (fun pr => keepFrom s pr.1)
  ⟨kept.map (·.1), P.cols, kept.map (·.2)⟩

/-- Embedding of `SQLDBReader._conform_df` (SQLDBReader.py lines 144-159).
With `ffill` the calendar window runs from the panel's earliest observed date
to `end_date`; the panel is reindexed onto that window minus its final date,
forward-filled, then sliced from `start_date` on. Without `ffill` the panel
is reindexed onto the `[start_date, end_date]` window minus its final date.
Finally the columns are reindexed onto `stockList`, which Python's truthiness
test `if not stock_list` replaces by the full stock set when empty. -/
def conformDf (cal : List Nat) (stocks : List String) (P : Panel) (ffill : Bool)
    (s e : Option Nat) (stockList : List String) : Panel :=
  let P1 :=
    if ffill then
      let dateList := selectDates cal (some (minimumD P.rows)) e
      sliceFrom (ffillPanel (reindexRows P dateList.dropLast)) s
    else
      let dateList := selectDates cal s e
      reindexRows P dateList.dropLast
  let u := if stockList.isEmpty then stocks else stockList
  reindexCols P1 u

/-- Cell of a panel at a (date, security) label pair; `none` when either
label is absent from the corresponding axis. -/
def cellAt (P : Panel) (d : Nat) (c : String) : Option Int :=
  lookupByKey P.cols (lookupByKey P.rows P.data [] d) none c

/-- Embedding of `SQLDBReader._check_args_and_get_primary_keys`
(SQLDBReader.py lines 132-142). The store's reflected metadata is the list
of (table name, column names) pairs. The table-existence assertion fires
first, then the column-existence assertion; on success the result is the
intersection of the fixed canonical list `[DateTime, ID, 报告期]` with the
table's columns, in that fixed order. -/
def checkArgsAndGetPrimaryKeys (meta : List (String × List String))
    (tableName factorName : String) : Except String (List String) :=
  match meta.find? (fun tbl => tbl.1 = tableName) with
  | none => .error "SchemaError: unknown table"
  | some tbl =>
    if factorName ∈ tbl.2 then
      .ok (["DateTime", "ID", "报告期"].filter (fun k => k ∈ tbl.2))
    else .error "SchemaError: unknown column"

/-- The (date, security) key pair of a long-format row. -/
def rowKey (r : Nat × String × Int) : Nat × String := (r.1, r.2.1)

/-- Direct pivot of long-format (date, security, value) rows to a wide
panel: the row axis is the sorted distinct dates, the column axis the sorted
distinct securities, each cell the value of the first row carrying its key
pair (pandas `unstack` label layout). -/
def pivotPanel (rs : List (Nat × String × Int)) : Panel :=
  let dates := sortUniq (rs.map (·.1))
  let ids := sortUniq (rs.map (fun r => r.2.1))
  ⟨dates, ids,
    dates.map (fun d => ids.map (fun c =>
      (rs.find? (fun r => rowKey r = (d, c))).map (fun r => r.2.2)))⟩

/-- Embedding of `df.unstack().droplevel(None, axis=1)` on a frame indexed by
(DateTime, ID) (SQLDBReader.py line 52): pandas raises on a duplicate index
entry ("Index contains duplicate entries, cannot reshape"), otherwise
produces the direct pivot. -/
def unstackLong (rs : List (Nat × String × Int)) : Except String Panel :=
  if (rs.map rowKey).Nodup then .ok (pivotPanel rs)
  else .error "DuplicateKeyError"

/-- Result of `SQLDBReader.get_factor`: a wide panel when the table's
primary keys are exactly (DateTime, ID); `raw` stands for the other index
shapes (single-column index returned as read, three-level financial index),
which no claim under study exercises. -/
inductive FactorResult where
  | panel (p : Panel)
  | raw (rs : List (Nat × String × Int))
deriving DecidableEq, Repr

/-- Embedding of `SQLDBReader.get_factor` (SQLDBReader.py lines 39-56):
lower-case the table name, resolve and validate the primary keys (failing
there happens before the table's rows are read), then for the
(DateTime, ID)-keyed shape unstack to a wide panel and conform it. -/
def getFactor (meta : List (String × List String)) (rs : List (Nat × String × Int))
    (tableName factorName : String) (ffill : Bool) (s e : Option Nat)
    (stockList : List String) (cal : List Nat) (stocks : List String) :
    Except String FactorResult :=
  match checkArgsAndGetPrimaryKeys meta tableName.toLower factorName with
  | .error err => .error err
  | .ok pk =>
    if pk = ["DateTime", "ID"] then
      match unstackLong rs with
      | .error err => .error err
      | .ok P => .ok (.panel (conformDf cal stocks P ffill s e stockList))
    else .ok (.raw rs)

/-- Long-format financial-statement row: observation date `dateTime`,
security `id`, fiscal report period `period` encoded `year * 100 + month`,
and the factor value. -/
structure FinRow where
  dateTime : Nat
  id : String
  period : Nat
  value : Int
deriving DecidableEq, Repr

/-- Yearly restriction of `get_financial_factor` (SQLDBReader.py lines
66-67): keep the rows whose report period's month is 12. -/
def yearlyFilter (yearly : Bool) (rows : List FinRow) : List FinRow :=
  if yearly then rows.filter (fun r => r.period % 100 = 12) else rows

/-- Rows of one security visible as of date `d`: the yearly-filtered rows of
security `sec` whose observation date is at most `d` (SQLDBReader.py lines
74-78). -/
def pitDateIdData (rows : List FinRow) (yearly : Bool) (sec : String) (d : Nat) :
    List FinRow :=
  ((yearlyFilter yearly rows).filter (fun r => r.id = sec)).filter
    (fun r => r.dateTime ≤ d)

/-- Value of the last row of a list, `0` on the empty list (pandas
`groupby(...).last()` keeps, per group, the last row in frame order). -/
def lastValueD (l : List FinRow) : Int :=
  match l.getLast? with
  | some r => r.value
  | none => 0

/-- Per-report-period kept values fed to the caller's aggregator
(SQLDBReader.py lines 79-81): group the rows visible as of `d` by report
period (group keys ascending, as pandas `groupby` sorts them) and keep, for
each period, the value of the last row of the group in frame order. -/
def pitLasts (rows : List FinRow) (yearly : Bool) (sec : String) (d : Nat) :
    List Int :=
  (sortUniq ((pitDateIdData rows yearly sec d).map (·.period))).map
    (fun p => lastValueD ((pitDateIdData rows yearly sec d).filter
      (fun r => r.period = p)))

/-- Point-in-time scalar reconstructed by `get_financial_factor` for an
(as-of date, security) pair: defined exactly at the security's distinct
observation dates (the build emits one output row per such date,
SQLDBReader.py lines 75-83), where it is the aggregator applied to the
per-report-period kept values. -/
def pitValue (rows : List FinRow) (agg : List Int → Int) (yearly : Bool)
    (d : Nat) (sec : String) : Option Int :=
  if d ∈ sortUniq (((yearlyFilter yearly rows).filter (fun r => r.id = sec)).map
      (·.dateTime)) then
    some (agg (pitLasts rows yearly sec d))
  else none

/-- Aggregator taking the value of the latest report period (the last entry
of the ascending-period list handed to the aggregator). -/
def lastAgg (l : List Int) : Int := l.getLastD 0

/-- Embedding of `SQLDBReader.get_financial_factor` (SQLDBReader.py lines
58-90): apply the yearly filter, intersect the securities present in the
data with the requested stock list (Python's `if stock_list:` skips the
intersection for an empty list), emit one (date, security, scalar) entry per
security and distinct observation date, then concatenate — `pd.concat`
raises `ValueError` on an empty entry list — unstack to a wide panel and
conform it without forward fill. -/
def getFinancialFactor (cal : List Nat) (stocks : List String)
    (rows : List FinRow) (agg : List Int → Int) (yearly : Bool)
    (s e : Option Nat) (stockList : List String) : Except String Panel :=
  let data := yearlyFilter yearly rows
  let allSecs :=
    if stockList.isEmpty then sortUniq (data.map (·.id))
    else (sortUniq (data.map (·.id))).filter (fun i => stockList.contains i)
  let storage := allSecs.flatMap (fun sec =>
    (sortUniq ((data.filter (fun r => r.id = sec)).map (·.dateTime))).map
      (fun d => (d, sec, agg (pitLasts rows yearly sec d))))
  if storage.isEmpty then .error "ValueError: no objects to concatenate"
  else
    match unstackLong storage with
    | .error err => .error err
    | .ok P => .ok (conformDf cal stocks P false s e stockList)

/-- Failure raised by the industry-level assertion. -/
inductive IndustryError where
  | levelError
deriving DecidableEq, Repr

/-- Embedding of `SQLDBReader.get_industry` (SQLDBReader.py lines 92-120):
assert `0 < level <= INDUSTRY_LEVEL[provider]` before any data is read (the
`INDUSTRY_LEVEL` constant is abstracted as the provider's `maxLevel`); at
the provider's native level the classification cells pass through unchanged,
at a coarser level each cell is mapped through the loaded translation
(pandas `map` leaves a missing cell for an untranslated category). -/
def getIndustry (maxLevel : Nat) (level : Int)
    (translation : String → Option String)
    (df : List ((Nat × String) × String)) :
    Except IndustryError (List ((Nat × String) × Option String)) :=
  if 0 < level ∧ level ≤ (maxLevel : Int) then
    if level = (maxLevel : Int) then .ok (df.map (fun x => (x.1, some x.2)))
    else .ok (df.map (fun x => (x.1, translation x.2)))
  else .error .levelError

/-! Supporting lemmas about the list-level building blocks. -/

theorem insertUniq_cons {α : Type} [LinearOrder α] (x y : α) (ys : List α) :
    insertUniq x (y :: ys) =
      if x < y then x :: y :: ys
      else if x = y then y :: ys else y :: insertUniq x ys := rfl

theorem mem_insertUniq {α : Type} [LinearOrder α] (x a : α) (l : List α) :
    a ∈ insertUniq x l ↔ a = x ∨ a ∈ l := by
  induction l with
  | nil => simp [insertUniq]
  | cons y ys ih =>
    by_cases h1 : x < y
    · rw [insertUniq_cons, if_pos h1, List.mem_cons]
    · by_cases h2 : x = y
      · subst h2
        rw [insertUniq_cons, if_neg h1, if_pos rfl, List.mem_cons]
        tauto
      · rw [insertUniq_cons, if_neg h1, if_neg h2, List.mem_cons, ih,
          List.mem_cons]
        tauto

theorem mem_sortUniq {α : Type} [LinearOrder α] (a : α) (l : List α) :
    a ∈ sortUniq l ↔ a ∈ l := by
  induction l with
  | nil => simp [sortUniq]
  | cons x xs ih =>
    show a ∈ insertUniq x (sortUniq xs) ↔ _
    rw [mem_insertUniq, ih, List.mem_cons]

theorem lookupByKey_map_self {α β : Type} [DecidableEq α] (keys : List α)
    (vals : List β) (dflt : β) (hk : keys.Nodup)
    (hl : vals.length = keys.length) :
    keys.map (lookupByKey keys vals dflt) = vals := by
  induction keys generalizing vals with
  | nil =>
    cases vals with
    | nil => rfl
    | cons v vs => simp at hl
  | cons k ks ih =>
    cases vals with
    | nil => simp at hl
    | cons v vs =>
      rw [List.nodup_cons] at hk
      simp only [List.map_cons]
      have hhead : lookupByKey (k :: ks) (v :: vs) dflt k = v := by
        simp [lookupByKey]
      have htail : ks.map (lookupByKey (k :: ks) (v :: vs) dflt) =
          ks.map (lookupByKey ks vs dflt) := by
        refine List.map_congr_left (fun a ha => ?_)
        have hne : a ≠ k := fun hak => hk.1 (hak ▸ ha)
        simp [lookupByKey, hne]
      rw [hhead, htail, ih vs hk.2 (by simpa using hl)]

theorem lookupByKey_map {α β : Type} [DecidableEq α] (l : List α) (f : α → β)
    (dflt : β) (d : α) (hd : d ∈ l) :
    lookupByKey l (l.map f) dflt d = f d := by
  induction l with
  | nil => simp at hd
  | cons x t ih =>
    by_cases h : d = x
    · subst h; simp [lookupByKey]
    · have hdt : d ∈ t := by
        rcases List.mem_cons.mp hd with h' | h'
        · exact absurd h' h
        · exact h'
      simp [lookupByKey, h, ih hdt]

theorem lookupByKey_not_mem {α β : Type} [DecidableEq α] (keys : List α)
    (vals : List β) (dflt : β) (k : α) (h : k ∉ keys) :
    lookupByKey keys vals dflt k = dflt := by
  induction keys generalizing vals with
  | nil => cases vals <;> rfl
  | cons k' ks ih =>
    cases vals with
    | nil => rfl
    | cons v vs =>
      have h1 : k ≠ k' := fun he => h (he ▸ List.mem_cons_self k' ks)
      have h2 : k ∉ ks := fun he => h (List.mem_cons_of_mem k' he)
      simp [lookupByKey, h1, ih vs h2]

theorem lookupByKey_nil_vals {α β : Type} [DecidableEq α] (keys : List α)
    (dflt : β) (k : α) : lookupByKey keys ([] : List β) dflt k = dflt := by
  cases keys <;> rfl

theorem getLast_dateTime_le :
    ∀ (l : List FinRow),
      l.Pairwise (fun a b => a.dateTime ≤ b.dateTime) →
      ∀ r, l.getLast? = some r → ∀ x ∈ l, x.dateTime ≤ r.dateTime
  | [], _, _, hr => by simp at hr
  | [a], _, r, hr => by
    intro x hx
    simp only [List.getLast?_singleton, Option.some.injEq] at hr
    rcases List.mem_singleton.mp hx with rfl
    exact hr ▸ le_refl _
  | a :: b :: t, hp, r, hr => by
    intro x hx
    rw [List.getLast?_cons_cons] at hr
    have hp' := List.pairwise_cons.mp hp
    rcases List.mem_cons.mp hx with rfl | hx'
    · exact hp'.1 r (List.mem_of_getLast?_eq_some hr)
    · exact getLast_dateTime_le (b :: t) hp'.2 r hr x hx'

theorem not_mem_dropLast_of_nodup {α : Type} (l : List α) (hn : l.Nodup)
    (x : α) (hx : l.getLast? = some x) : x ∉ l.dropLast := by
  intro hmem
  have heq : l.dropLast ++ [x] = l :=
    List.dropLast_append_getLast? x (Option.mem_def.mpr hx)
  rw [← heq] at hn
  exact (List.nodup_append.mp hn).2.2 hmem (List.mem_singleton_self x)

theorem map_fst_filter_zip {α β : Type} (p : α → Bool) :
    ∀ (l : List α) (m : List β), l.length ≤ m.length →
      ((l.zip m).filter (fun pr => p pr.1)).map Prod.fst = l.filter p
  | [], _, _ => rfl
  | a :: l, [], h => by simp at h
  | a :: l, b :: m, h => by
    have ih := map_fst_filter_zip p l m (by simpa using h)
    by_cases hp : p a
    · simp [List.filter_cons, hp, ih]
    · simp [List.filter_cons, hp, ih]

theorem ffillStep_all_some :
    ∀ (row prev : List (Option Int)), row.length ≤ prev.length →
      (∀ c ∈ row, c.isSome) → ffillStep prev row = row
  | [], prev, _, _ => by cases prev <;> rfl
  | c :: cs, [], h, _ => by simp at h
  | c :: cs, p :: ps, h, hs => by
    obtain ⟨v, rfl⟩ := Option.isSome_iff_exists.mp (hs c (List.mem_cons_self c cs))
    have ih := ffillStep_all_some cs ps (by simpa using h)
      (fun x hx => hs x (List.mem_cons_of_mem _ hx))
    simp only [ffillStep, List.zipWith_cons_cons] at ih ⊢
    rw [ih]

theorem ffillData_all_some (n : Nat) :
    ∀ (rowsD : List (List (Option Int))) (prev : List (Option Int)),
      prev.length = n → (∀ row ∈ rowsD, row.length = n) →
      (∀ row ∈ rowsD, ∀ c ∈ row, c.isSome) → ffillData prev rowsD = rowsD
  | [], _, _, _, _ => rfl
  | row :: rest, prev, hp, hlen, hsome => by
    have h1 : ffillStep prev row = row :=
      ffillStep_all_some row prev
        (by rw [hp, hlen row (List.mem_cons_self row rest)])
        (hsome row (List.mem_cons_self row rest))
    have h2 : ffillData row rest = rest :=
      ffillData_all_some n rest row (hlen row (List.mem_cons_self row rest))
        (fun r hr => hlen r (List.mem_cons_of_mem row hr))
        (fun r hr => hsome r (List.mem_cons_of_mem row hr))
    simp only [ffillData, h1, h2]

theorem ffillData_length :
    ∀ (prev : List (Option Int)) (rowsD : List (List (Option Int))),
      (ffillData prev rowsD).length = rowsD.length
  | _, [] => rfl
  | prev, row :: rest => by
    simp only [ffillData, List.length_cons, ffillData_length]

theorem mem_yearlyFilter (yearly : Bool) (l : List FinRow) (r : FinRow)
    (h : r ∈ yearlyFilter yearly l) : r ∈ l := by
  cases yearly
  · simpa [yearlyFilter] using h
  · exact List.mem_of_mem_filter (h : r ∈ List.filter _ l)

theorem yearlyFilter_append (yearly : Bool) (l1 l2 : List FinRow) :
    yearlyFilter yearly (l1 ++ l2) =
      yearlyFilter yearly l1 ++ yearlyFilter yearly l2 := by
  cases yearly <;> simp [yearlyFilter]

theorem pitDateIdData_append (l1 l2 : List FinRow) (yearly : Bool)
    (sec : String) (d : Nat) :
    pitDateIdData (l1 ++ l2) yearly sec d =
      pitDateIdData l1 yearly sec d ++ pitDateIdData l2 yearly sec d := by
  simp [pitDateIdData, yearlyFilter_append]

theorem pitDateIdData_singleton_late (r : FinRow) (yearly : Bool)
    (sec : String) (d : Nat) (h : d < r.dateTime) :
    pitDateIdData [r] yearly sec d = [] := by
  rw [pitDateIdData, List.filter_eq_nil_iff]
  intro a ha
  have ha2 : a ∈ [r] := mem_yearlyFilter _ _ _ (List.mem_of_mem_filter ha)
  rcases List.mem_singleton.mp ha2 with rfl
  simp
  omega

theorem pitLasts_append_late (rows : List FinRow) (r : FinRow) (yearly : Bool)
    (sec : String) (d : Nat) (h : d < r.dateTime) :
    pitLasts (rows ++ [r]) yearly sec d = pitLasts rows yearly sec d := by
  unfold pitLasts
  rw [pitDateIdData_append, pitDateIdData_singleton_late _ _ _ _ h,
    List.append_nil]

/-! Claim theorems. -/

/-- C1: the point-in-time scalar reconstructed for an (as-of date, security)
pair is computed only from rows whose observation date is at most the as-of
date: appending to the input any row observed later than `d` leaves the
value reconstructed for `(d, sec)` unchanged. -/
theorem pitValue_lookahead_free (rows : List FinRow) (r : FinRow)
    (agg : List Int → Int) (yearly : Bool) (d : Nat) (sec : String)
    (h : d < r.dateTime) :
    pitValue (rows ++ [r]) agg yearly d sec = pitValue rows agg yearly d sec := by
  have hmem : (d ∈ sortUniq (((yearlyFilter yearly (rows ++ [r])).filter
        (fun t => t.id = sec)).map (·.dateTime))) ↔
      (d ∈ sortUniq (((yearlyFilter yearly rows).filter
        (fun t => t.id = sec)).map (·.dateTime))) := by
    rw [mem_sortUniq, mem_sortUniq, yearlyFilter_append, List.filter_append,
      List.map_append, List.mem_append]
    constructor
    · rintro (hmem1 | hmem2)
      · exact hmem1
      · exfalso
        rcases List.mem_map.mp hmem2 with ⟨a, ha, had⟩
        have ha2 : a ∈ [r] := mem_yearlyFilter _ _ _ (List.mem_of_mem_filter ha)
        rcases List.mem_singleton.mp ha2 with rfl
        omega
    · exact Or.inl
  simp only [pitValue, pitLasts_append_late rows r yearly sec d h]
  exact if_congr hmem rfl rfl

/-- Witness for C1 at the spec's restatement example: appending the
March-observed restatement does not change the value as of February 1. -/
theorem pitValue_lookahead_free_witness :
    pitValue ([⟨201, "X", 202312, 5⟩] ++ [⟨301, "X", 202312, 7⟩])
        lastAgg true 201 "X" =
      pitValue [⟨201, "X", 202312, 5⟩] lastAgg true 201 "X" :=
  pitValue_lookahead_free [⟨201, "X", 202312, 5⟩] ⟨301, "X", 202312, 7⟩
    lastAgg true 201 "X" (by decide)

/-- C5 (counterexample): on calendar [1,2,3,4] with raw panel (1,A)=10 and
(3,A)=30, conforming with forward fill over start 2 and end 4 does not
return rows [2,3,4] with values [10,30,30] as the spec's example states: the
final calendar date 4 is dropped as the alignment sentinel. -/
theorem conformDf_example_counterexample :
    conformDf [1, 2, 3, 4] ["A"] ⟨[1, 3], ["A"], [[some 10], [some 30]]⟩
        true (some 2) (some 4) [] ≠
      ⟨[2, 3, 4], ["A"], [[some 10], [some 30], [some 30]]⟩ := by
  decide

/-- C5 (amended): on calendar [1,2,3,4] with raw panel (1,A)=10 and
(3,A)=30, conforming with forward fill over start 2 and end 4 returns rows
[2,3] with values [10,30]; the final calendar date 4 acts as the alignment
sentinel and is excluded. -/
theorem conformDf_example :
    conformDf [1, 2, 3, 4] ["A"] ⟨[1, 3], ["A"], [[some 10], [some 30]]⟩
        true (some 2) (some 4) [] =
      ⟨[2, 3], ["A"], [[some 10], [some 30]]⟩ := by
  decide

/-- C9: the industry translation fails with a level error exactly when the
requested level exceeds the provider's maximum defined level or is at most
zero; in particular requesting level 5 from a provider whose maximum level
is 3 fails. -/
theorem getIndustry_level_gate (maxLevel : Nat) (level : Int)
    (translation : String → Option String)
    (df : List ((Nat × String) × String)) :
    ((∃ msg, getIndustry maxLevel level translation df = .error msg) ↔
      ((maxLevel : Int) < level ∨ level ≤ 0)) ∧
    getIndustry 3 5 translation df = .error .levelError := by
  constructor
  · have hform : (∃ msg, getIndustry maxLevel level translation df = .error msg) ↔
        ¬(0 < level ∧ level ≤ (maxLevel : Int)) := by
      unfold getIndustry
      by_cases hc : 0 < level ∧ level ≤ (maxLevel : Int)
      · rw [if_pos hc]
        constructor
        · rintro ⟨msg, hmsg⟩
          split at hmsg <;> simp at hmsg
        · intro hneg; exact absurd hc hneg
      · rw [if_neg hc]
        exact ⟨fun _ => hc, fun _ => ⟨.levelError, rfl⟩⟩
    rw [hform]
    omega
  · have hc : ¬((0 : Int) < 5 ∧ (5 : Int) ≤ ((3 : Nat) : Int)) := by omega
    unfold getIndustry
    rw [if_neg hc]

/-- C10: when the securities surviving the yearly filter have empty
intersection with the requested stock list, `get_financial_factor` raises
the concatenation error rather than returning an empty panel. -/
theorem getFinancialFactor_empty_error (cal : List Nat) (stocks : List String)
    (rows : List FinRow) (agg : List Int → Int) (yearly : Bool)
    (s e : Option Nat) (stockList : List String) (hsl : stockList ≠ [])
    (h : (sortUniq ((yearlyFilter yearly rows).map (·.id))).filter
        (fun i => stockList.contains i) = []) :
    getFinancialFactor cal stocks rows agg yearly s e stockList =
      .error "ValueError: no objects to concatenate" := by
  have hempty : stockList.isEmpty = false := by
    cases stockList
    · exact absurd rfl hsl
    · rfl
  simp only [getFinancialFactor, hempty, Bool.false_eq_true, if_false, h,
    List.flatMap_nil, List.isEmpty_nil, if_true]

/-- Witness for C10: one yearly row for security B and a stock list holding
only C produce the concatenation error. -/
theorem getFinancialFactor_empty_error_witness :
    getFinancialFactor [1] ["A"] [⟨1, "B", 202312, 5⟩] lastAgg true
        none none ["C"] = .error "ValueError: no objects to concatenate" :=
  getFinancialFactor_empty_error [1] ["A"] [⟨1, "B", 202312, 5⟩] lastAgg true
    none none ["C"] (by decide) (by decide)

theorem find_table (meta : List (String × List String))
    (hn : (meta.map Prod.fst).Nodup) (t : String) (cols : List String)
    (h : (t, cols) ∈ meta) :
    meta.find? (fun tbl => tbl.1 = t) = some (t, cols) := by
  induction meta with
  | nil => simp at h
  | cons m ms ih =>
    rw [List.map_cons, List.nodup_cons] at hn
    by_cases hm : m.1 = t
    · have hmc : m = (t, cols) := by
        rcases List.mem_cons.mp h with h' | h'
        · exact h'.symm
        · exact absurd (hm ▸ List.mem_map.mpr ⟨(t, cols), h', rfl⟩) hn.1
      rw [List.find?_cons_of_pos _ (by simp [hm]), hmc]
    · rw [List.find?_cons_of_neg _ (by simp [hm])]
      refine ih hn.2 ?_
      rcases List.mem_cons.mp h with h' | h'
      · exact absurd (by rw [← h']) hm
      · exact h'

/-- C3: resolving the primary keys fails with a schema error exactly when
the table is absent from the store or the factor is not one of its columns;
on success it returns the canonical key columns among the table's columns in
the fixed order DateTime, ID, report period; and when it fails, the result
of `get_factor` is the same error for every row-data content, so the
failure happens before any data query is consulted. -/
theorem checkArgs_spec (meta : List (String × List String)) (t c : String)
    (hn : (meta.map Prod.fst).Nodup) :
    ((∃ msg, checkArgsAndGetPrimaryKeys meta t c = .error msg) ↔
      ¬ ∃ cols, (t, cols) ∈ meta ∧ c ∈ cols) ∧
    (∀ cols, (t, cols) ∈ meta → c ∈ cols →
      checkArgsAndGetPrimaryKeys meta t c =
        .ok (["DateTime", "ID", "报告期"].filter (fun k => k ∈ cols))) ∧
    (∀ rs rs' ffill s e sl cal stocks,
      (∃ msg, checkArgsAndGetPrimaryKeys meta t.toLower c = .error msg) →
      getFactor meta rs t c ffill s e sl cal stocks =
        getFactor meta rs' t c ffill s e sl cal stocks ∧
      ∃ msg, getFactor meta rs t c ffill s e sl cal stocks = .error msg) := by
  refine ⟨?_, ?_, ?_⟩
  · by_cases hex : ∃ cols, (t, cols) ∈ meta ∧ c ∈ cols
    · obtain ⟨cols, hm, hc⟩ := hex
      constructor
      · rintro ⟨msg, hmsg⟩
        rw [checkArgsAndGetPrimaryKeys, find_table meta hn t cols hm] at hmsg
        simp only [if_pos hc] at hmsg
        exact absurd hmsg (by simp)
      · intro hneg
        exact absurd ⟨cols, hm, hc⟩ hneg
    · refine ⟨fun _ => hex, fun _ => ?_⟩
      cases hfind : meta.find? (fun tbl => tbl.1 = t) with
      | none =>
        refine ⟨"SchemaError: unknown table", ?_⟩
        rw [checkArgsAndGetPrimaryKeys, hfind]
      | some tbl =>
        cases tbl with
        | mk a b =>
          have ha : a = t := by simpa using List.find?_some hfind
          subst ha
          have hmem : (a, b) ∈ meta := List.mem_of_find?_eq_some hfind
          have hcnot : c ∉ b := fun hcb => hex ⟨b, hmem, hcb⟩
          refine ⟨"SchemaError: unknown column", ?_⟩
          rw [checkArgsAndGetPrimaryKeys, hfind]
          simp only [if_neg hcnot]
  · intro cols hm hc
    rw [checkArgsAndGetPrimaryKeys, find_table meta hn t cols hm]
    simp only [if_pos hc]
  · rintro rs rs' ffill s e sl cal stocks ⟨msg, hmsg⟩
    unfold getFactor
    rw [hmsg]
    exact ⟨rfl, msg, rfl⟩

/-- Witness for C3: in a store with one table `t` of columns DateTime, ID,
x, resolving (t, x) returns [DateTime, ID], and resolving the unknown table
`u` fails. -/
theorem checkArgs_spec_witness :
    checkArgsAndGetPrimaryKeys [("t", ["DateTime", "ID", "x"])] "t" "x" =
      .ok (["DateTime", "ID", "报告期"].filter
        (fun k => k ∈ ["DateTime", "ID", "x"])) ∧
    (∃ msg, checkArgsAndGetPrimaryKeys [("t", ["DateTime", "ID", "x"])] "u" "x" =
      .error msg) := by
  constructor
  · exact (checkArgs_spec [("t", ["DateTime", "ID", "x"])] "t" "x"
      (by decide)).2.1 ["DateTime", "ID", "x"] (by decide) (by decide)
  · refine ((checkArgs_spec [("t", ["DateTime", "ID", "x"])] "u" "x"
      (by decide)).1).mpr ?_
    rintro ⟨cols, hm, -⟩
    simp at hm

/-- C7 (counterexample): conforming with an empty security universe does not
return a panel with zero columns; Python's falsy test replaces the empty
stock list by the full known security set. -/
theorem conformDf_empty_universe_counterexample :
    (conformDf [1, 2] ["A", "B"] ⟨[1], ["A"], [[some 1]]⟩ false none none
      []).cols = ["A", "B"] ∧ ["A", "B"] ≠ ([] : List String) := by
  decide

/-- C7 (amended): an empty universe is replaced by the full known security
set; a non-empty universe becomes the column axis exactly, securities absent
from the panel become all-missing columns, and columns not requested are
dropped. -/
theorem conformDf_universe (cal : List Nat) (stocks : List String) (P : Panel)
    (ffill : Bool) (s e : Option Nat) (u : List String) :
    (u = [] → (conformDf cal stocks P ffill s e u).cols = stocks) ∧
    (u ≠ [] → (conformDf cal stocks P ffill s e u).cols = u ∧
      ∀ c ∈ u, c ∉ P.cols →
        ∀ row ∈ (conformDf cal stocks P ffill s e u).data,
          lookupByKey u row none c = none) := by
  obtain ⟨P1, heq, hcols⟩ : ∃ P1 : Panel,
      conformDf cal stocks P ffill s e u =
        reindexCols P1 (if u.isEmpty then stocks else u) ∧ P1.cols = P.cols := by
    cases ffill
    · exact ⟨reindexRows P (selectDates cal s e).dropLast, rfl, rfl⟩
    · exact ⟨sliceFrom (ffillPanel (reindexRows P
        ((selectDates cal (some (minimumD P.rows)) e).dropLast))) s, rfl, rfl⟩
  constructor
  · intro hu
    subst hu
    rw [heq]
    rfl
  · intro hu
    have hu' : (if u.isEmpty then stocks else u) = u := by
      cases u
      · exact absurd rfl hu
      · rfl
    rw [heq, hu']
    refine ⟨rfl, ?_⟩
    intro c hc hnc row hrow
    rcases List.mem_map.mp hrow with ⟨prow, hprow, rfl⟩
    rw [lookupByKey_map u (fun c' => lookupByKey P1.cols prow none c') none c hc]
    exact lookupByKey_not_mem _ _ _ _ (by rw [hcols]; exact hnc)

/-- Witness for C7: requesting universe [A, C] on a panel having only column
A yields columns [A, C] with the C column missing. -/
theorem conformDf_universe_witness :
    (conformDf [1, 2] ["B"] ⟨[1], ["A"], [[some 1]]⟩ false none none
      ["A", "C"]).cols = ["A", "C"] ∧
    lookupByKey ["A", "C"]
      ((conformDf [1, 2] ["B"] ⟨[1], ["A"], [[some 1]]⟩ false none none
        ["A", "C"]).data.getD 0 []) none "C" = none := by
  have h := (conformDf_universe [1, 2] ["B"] ⟨[1], ["A"], [[some 1]]⟩ false
    none none ["A", "C"]).2 (by decide)
  exact ⟨h.1, h.2 "C" (by decide) (by decide) _ (by decide)⟩

theorem sliceFrom_rows (Q : Panel) (s : Option Nat)
    (hlen : Q.rows.length ≤ Q.data.length) :
    (sliceFrom Q s).rows = Q.rows.filter (keepFrom s) :=
  map_fst_filter_zip (keepFrom s) Q.rows Q.data hlen

/-- C4 (counterexample): the row axis of the conformed panel is not in
general the resolved calendar window minus its final date: under forward
fill it is additionally truncated to dates at or after start_date (first
conjunct, window resolved from the panel's earliest date), and it is not the
window resolved from start_date either (second conjunct, panel observed only
from date 3 onward). -/
theorem conformDf_rows_counterexample :
    (conformDf [1, 2, 3, 4] ["A"] ⟨[1, 3], ["A"], [[some 10], [some 30]]⟩
        true (some 2) (some 4) []).rows ≠
      (selectDates [1, 2, 3, 4] (some (minimumD [1, 3])) (some 4)).dropLast ∧
    (conformDf [1, 2, 3, 4] ["A"] ⟨[3], ["A"], [[some 30]]⟩
        true (some 1) (some 4) []).rows ≠
      (selectDates [1, 2, 3, 4] (some 1) (some 4)).dropLast := by
  decide

/-- C4 (amended): without forward fill the row axis of the conformed panel
is the resolved [start, end] calendar window minus its final date; with
forward fill it is the resolved [earliest observation, end] window minus its
final date, further truncated to dates at or after start_date; in both cases
the final date of the resolved window never appears as a row. -/
theorem conformDf_rows (cal : List Nat) (stocks : List String) (P : Panel)
    (ffill : Bool) (s e : Option Nat) (u : List String) (hcal : cal.Nodup) :
    ((conformDf cal stocks P ffill s e u).rows =
      if ffill then
        ((selectDates cal (some (minimumD P.rows)) e).dropLast).filter
          (keepFrom s)
      else (selectDates cal s e).dropLast) ∧
    (∀ L, (if ffill then selectDates cal (some (minimumD P.rows)) e
        else selectDates cal s e).getLast? = some L →
      L ∉ (conformDf cal stocks P ffill s e u).rows) := by
  have hrows : (conformDf cal stocks P ffill s e u).rows =
      if ffill then
        ((selectDates cal (some (minimumD P.rows)) e).dropLast).filter
          (keepFrom s)
      else (selectDates cal s e).dropLast := by
    cases ffill
    · rfl
    · have h1 : (conformDf cal stocks P true s e u).rows =
          (sliceFrom (ffillPanel (reindexRows P
            ((selectDates cal (some (minimumD P.rows)) e).dropLast))) s).rows :=
        rfl
      rw [h1, sliceFrom_rows _ s (by
        show ((selectDates cal (some (minimumD P.rows)) e).dropLast).length ≤
          (ffillData (List.replicate P.cols.length none)
            (((selectDates cal (some (minimumD P.rows)) e).dropLast).map
              (lookupRowData P))).length
        rw [ffillData_length, List.length_map])]
      rfl
  refine ⟨hrows, ?_⟩
  intro L hL
  rw [hrows]
  cases ffill
  · simp only [Bool.false_eq_true, if_false] at hL ⊢
    exact not_mem_dropLast_of_nodup _ (List.Nodup.filter _ hcal) L hL
  · simp only [if_true] at hL ⊢
    intro hmem
    exact not_mem_dropLast_of_nodup _ (List.Nodup.filter _ hcal) L hL
      (List.mem_of_mem_filter hmem)

/-- Witness for C4: on calendar [1,2,3,4] with forward fill, start 2, end 4
and panel observed at 1 and 3, the rows are the truncated window and the
final resolved date 4 does not appear. -/
theorem conformDf_rows_witness :
    (conformDf [1, 2, 3, 4] ["A"] ⟨[1, 3], ["A"], [[some 10], [some 30]]⟩
        true (some 2) (some 4) []).rows =
      ((selectDates [1, 2, 3, 4] (some (minimumD [1, 3]))
        (some 4)).dropLast).filter (keepFrom (some 2)) ∧
    (4 : Nat) ∉ (conformDf [1, 2, 3, 4] ["A"]
      ⟨[1, 3], ["A"], [[some 10], [some 30]]⟩ true (some 2) (some 4) []).rows := by
  have h := conformDf_rows [1, 2, 3, 4] ["A"]
    ⟨[1, 3], ["A"], [[some 10], [some 30]]⟩ true (some 2) (some 4) []
    (by decide)
  exact ⟨by simpa using h.1, h.2 4 (by decide)⟩

theorem find_rowKey_nodup (rs : List (Nat × String × Int))
    (hk : (rs.map rowKey).Nodup) (d : Nat) (s : String) (v : Int)
    (h : (d, s, v) ∈ rs) :
    rs.find? (fun r => rowKey r = (d, s)) = some (d, s, v) := by
  induction rs with
  | nil => simp at h
  | cons a l ih =>
    rw [List.map_cons, List.nodup_cons] at hk
    by_cases ha : rowKey a = (d, s)
    · have haeq : a = (d, s, v) := by
        rcases List.mem_cons.mp h with h' | h'
        · exact h'.symm
        · exfalso
          apply hk.1
          rw [ha]
          exact List.mem_map.mpr ⟨(d, s, v), h', rfl⟩
      rw [List.find?_cons_of_pos _ (by simp [ha]), haeq]
    · rw [List.find?_cons_of_neg _ (by simp [ha])]
      refine ih hk.2 ?_
      rcases List.mem_cons.mp h with h' | h'
      · exact absurd (by rw [← h']; rfl) ha
      · exact h'

theorem cellAt_pivot_mem (rs : List (Nat × String × Int)) (d : Nat)
    (s : String) (hd : d ∈ sortUniq (rs.map (·.1)))
    (hs : s ∈ sortUniq (rs.map (fun r => r.2.1))) :
    cellAt (pivotPanel rs) d s =
      (rs.find? (fun r => rowKey r = (d, s))).map (fun r => r.2.2) := by
  show lookupByKey (sortUniq (rs.map (fun r => r.2.1)))
      (lookupByKey (sortUniq (rs.map (·.1)))
        ((sortUniq (rs.map (·.1))).map (fun d' =>
          (sortUniq (rs.map (fun r => r.2.1))).map (fun c =>
            (rs.find? (fun r => rowKey r = (d', c))).map (fun r => r.2.2))))
        [] d) none s = _
  rw [lookupByKey_map _ _ [] d hd, lookupByKey_map _ _ none s hs]

theorem cellAt_pivot_none (rs : List (Nat × String × Int)) (d : Nat)
    (s : String) (h : ∀ v, (d, s, v) ∉ rs) :
    cellAt (pivotPanel rs) d s = none := by
  by_cases hd : d ∈ sortUniq (rs.map (·.1))
  · by_cases hs : s ∈ sortUniq (rs.map (fun r => r.2.1))
    · rw [cellAt_pivot_mem rs d s hd hs]
      rw [List.find?_eq_none.mpr ?_]
      · rfl
      · intro r hr hkey
        apply h r.2.2
        have hr2 : r = (d, s, r.2.2) := by
          obtain ⟨r1, r2, r3⟩ := r
          simp only [rowKey, decide_eq_true_eq, Prod.mk.injEq] at hkey
          simp [hkey.1, hkey.2]
        rw [← hr2]
        exact hr
    · show lookupByKey (pivotPanel rs).cols
          (lookupByKey (pivotPanel rs).rows (pivotPanel rs).data [] d) none s =
        none
      exact lookupByKey_not_mem _ _ _ _ hs
  · show lookupByKey (pivotPanel rs).cols
        (lookupByKey (pivotPanel rs).rows (pivotPanel rs).data [] d) none s =
      none
    rw [lookupByKey_not_mem (pivotPanel rs).rows (pivotPanel rs).data [] d hd]
    exact lookupByKey_nil_vals _ _ _

/-- C8: reshaping a long-format (date, security, value) row set to a wide
panel fails with the duplicate-key error exactly when some (date, security)
pair occurs in more than one row; with unique keys it is the direct pivot:
the cell at (date, security) holds the row's value, and pairs without a row
are missing. -/
theorem unstack_spec (rs : List (Nat × String × Int)) :
    (¬ (rs.map rowKey).Nodup → unstackLong rs = .error "DuplicateKeyError") ∧
    ((rs.map rowKey).Nodup → ∃ P, unstackLong rs = .ok P ∧
      (∀ d s v, (d, s, v) ∈ rs → cellAt P d s = some v) ∧
      (∀ d s, (∀ v, (d, s, v) ∉ rs) → cellAt P d s = none)) := by
  constructor
  · intro hnd
    rw [unstackLong, if_neg hnd]
  · intro hnd
    refine ⟨pivotPanel rs, by rw [unstackLong, if_pos hnd], ?_, ?_⟩
    · intro d s v hmem
      rw [cellAt_pivot_mem rs d s
          ((mem_sortUniq _ _).mpr (List.mem_map.mpr ⟨(d, s, v), hmem, rfl⟩))
          ((mem_sortUniq _ _).mpr (List.mem_map.mpr ⟨(d, s, v), hmem, rfl⟩)),
        find_rowKey_nodup rs hnd d s v hmem]
      rfl
    · intro d s hno
      exact cellAt_pivot_none rs d s hno

/-- Witness for C8: a duplicated (1, A) key fails, and the two-row unique
set pivots with the stated cells. -/
theorem unstack_spec_witness :
    unstackLong [(1, "A", 10), (1, "A", 20)] = .error "DuplicateKeyError" ∧
    ∃ P, unstackLong [(1, "A", 10), (2, "B", 20)] = .ok P ∧
      cellAt P 1 "A" = some 10 ∧ cellAt P 2 "B" = some 20 ∧
      cellAt P 1 "B" = none := by
  refine ⟨(unstack_spec _).1 (by decide), ?_⟩
  obtain ⟨P, hP, hsome, hnone⟩ :=
    (unstack_spec [(1, "A", 10), (2, "B", 20)]).2 (by decide)
  refine ⟨P, hP, hsome 1 "A" 10 (by decide), hsome 2 "B" 20 (by decide),
    hnone 1 "B" ?_⟩
  intro v hv
  simp [Prod.ext_iff] at hv

theorem mem_pitDateIdData (rows : List FinRow) (yearly : Bool) (sec : String)
    (d : Nat) (a : FinRow) (h : a ∈ pitDateIdData rows yearly sec d) :
    a.id = sec ∧ a.dateTime ≤ d := by
  unfold pitDateIdData at h
  have h1 := List.mem_filter.mp h
  have h2 := List.mem_filter.mp h1.1
  exact ⟨of_decide_eq_true h2.2, of_decide_eq_true h1.2⟩

/-- C2 (counterexample): with the same two restatement rows stored in
reverse observation order (March row first, February row second), the value
as of March 1 is 5, the value of the row stored last, not 7, the value of
the row with the greatest observation date, refuting the claim as stated. -/
theorem pit_latest_counterexample :
    pitValue [⟨301, "X", 202312, 7⟩, ⟨201, "X", 202312, 5⟩] lastAgg true
        301 "X" = some 5 ∧
    pitValue [⟨301, "X", 202312, 7⟩, ⟨201, "X", 202312, 5⟩] lastAgg true
        301 "X" ≠ some 7 := by
  constructor <;> decide

/-- C2 (amended): among the rows visible as of `d` sharing a report period,
the row kept before the aggregator is applied is the one occurring last in
the input order; when rows of one security and report period appear in
ascending observation-date order, that row has the greatest observation
date among them, and the spec's example yields 5 as of February 1 and 7 as
of March 1. -/
theorem pit_latest_restatement (rows : List FinRow) (yearly : Bool)
    (sec : String) (d : Nat) (p : Nat)
    (hp : rows.Pairwise (fun a b => a.id = b.id → a.period = b.period →
      a.dateTime ≤ b.dateTime))
    (hne : (pitDateIdData rows yearly sec d).filter
      (fun r => r.period = p) ≠ []) :
    (∃ r, ((pitDateIdData rows yearly sec d).filter
        (fun r => r.period = p)).getLast? = some r ∧
      r ∈ (pitDateIdData rows yearly sec d).filter (fun r => r.period = p) ∧
      (∀ x ∈ (pitDateIdData rows yearly sec d).filter (fun r => r.period = p),
        x.dateTime ≤ r.dateTime) ∧
      lastValueD ((pitDateIdData rows yearly sec d).filter
        (fun r => r.period = p)) = r.value) ∧
    pitValue [⟨201, "X", 202312, 5⟩, ⟨301, "X", 202312, 7⟩] lastAgg true
      201 "X" = some 5 ∧
    pitValue [⟨201, "X", 202312, 5⟩, ⟨301, "X", 202312, 7⟩] lastAgg true
      301 "X" = some 7 := by
  refine ⟨?_, by decide, by decide⟩
  have h1 : (yearlyFilter yearly rows).Pairwise (fun a b =>
      a.id = b.id → a.period = b.period → a.dateTime ≤ b.dateTime) := by
    cases yearly
    · exact hp
    · exact List.Pairwise.sublist (List.filter_sublist _) hp
  have h0 : (pitDateIdData rows yearly sec d).Pairwise (fun a b =>
      a.id = b.id → a.period = b.period → a.dateTime ≤ b.dateTime) :=
    List.Pairwise.sublist (List.filter_sublist _)
      (List.Pairwise.sublist (List.filter_sublist _) h1)
  have h2 : ((pitDateIdData rows yearly sec d).filter
      (fun r => r.period = p)).Pairwise (fun a b =>
        a.id = b.id → a.period = b.period → a.dateTime ≤ b.dateTime) :=
    List.Pairwise.sublist (List.filter_sublist _) h0
  have hpl : ((pitDateIdData rows yearly sec d).filter
      (fun r => r.period = p)).Pairwise (fun a b =>
        a.dateTime ≤ b.dateTime) := by
    refine h2.imp_of_mem ?_
    intro a b hma hmb hR
    have ha := List.mem_filter.mp hma
    have hb := List.mem_filter.mp hmb
    have ha1 := mem_pitDateIdData rows yearly sec d a ha.1
    have hb1 := mem_pitDateIdData rows yearly sec d b hb.1
    exact hR (ha1.1.trans hb1.1.symm)
      ((of_decide_eq_true ha.2).trans (of_decide_eq_true hb.2).symm)
  have hsome : ((pitDateIdData rows yearly sec d).filter
      (fun r => r.period = p)).getLast? =
      some (((pitDateIdData rows yearly sec d).filter
        (fun r => r.period = p)).getLast hne) :=
    List.getLast?_eq_getLast _ hne
  refine ⟨_, hsome, List.mem_of_getLast?_eq_some hsome,
    getLast_dateTime_le _ hpl _ hsome, ?_⟩
  rw [lastValueD, hsome]

/-- Witness for C2 at the spec's restatement example, taken as of March 1
for period 2023-12: the kept row is the last-stored one, which has the
greatest observation date since the rows are stored in ascending
observation order. -/
theorem pit_latest_restatement_witness :
    (∃ r, ((pitDateIdData [⟨201, "X", 202312, 5⟩, ⟨301, "X", 202312, 7⟩]
        true "X" 301).filter (fun r => r.period = 202312)).getLast? = some r ∧
      r ∈ (pitDateIdData [⟨201, "X", 202312, 5⟩, ⟨301, "X", 202312, 7⟩]
        true "X" 301).filter (fun r => r.period = 202312) ∧
      (∀ x ∈ (pitDateIdData [⟨201, "X", 202312, 5⟩, ⟨301, "X", 202312, 7⟩]
          true "X" 301).filter (fun r => r.period = 202312),
        x.dateTime ≤ r.dateTime) ∧
      lastValueD ((pitDateIdData [⟨201, "X", 202312, 5⟩,
        ⟨301, "X", 202312, 7⟩] true "X" 301).filter
          (fun r => r.period = 202312)) = r.value) ∧
    pitValue [⟨201, "X", 202312, 5⟩, ⟨301, "X", 202312, 7⟩] lastAgg true
      201 "X" = some 5 ∧
    pitValue [⟨201, "X", 202312, 5⟩, ⟨301, "X", 202312, 7⟩] lastAgg true
      301 "X" = some 7 :=
  pit_latest_restatement [⟨201, "X", 202312, 5⟩, ⟨301, "X", 202312, 7⟩]
    true "X" 301 202312 (by decide) (by decide)

/-- C6: conforming an already calendar-aligned, fully forward-filled panel
again with forward fill, the same date bounds and the same universe returns
the panel unchanged. -/
theorem conformDf_idempotent (cal : List Nat) (stocks : List String)
    (P : Panel) (s e : Option Nat) (u : List String)
    (hlen : P.data.length = P.rows.length)
    (hrowlen : ∀ row ∈ P.data, row.length = P.cols.length)
    (hrnd : P.rows.Nodup) (hcnd : P.cols.Nodup)
    (haligned : (selectDates cal (some (minimumD P.rows)) e).dropLast = P.rows)
    (hfilled : ∀ row ∈ P.data, ∀ c ∈ row, c.isSome = true)
    (hstart : ∀ x ∈ P.rows, keepFrom s x = true)
    (hcols : P.cols = u) (hu : u ≠ []) :
    conformDf cal stocks P true s e u = P := by
  have h1 : reindexRows P P.rows = P := by
    obtain ⟨rows, cols, data⟩ := P
    simp only [reindexRows, Panel.mk.injEq]
    refine ⟨trivial, trivial, ?_⟩
    exact lookupByKey_map_self rows data _ hrnd hlen
  have h2 : ffillPanel P = P := by
    obtain ⟨rows, cols, data⟩ := P
    simp only [ffillPanel, Panel.mk.injEq]
    refine ⟨trivial, trivial, ?_⟩
    exact ffillData_all_some cols.length data (List.replicate cols.length none)
      (List.length_replicate _ _) hrowlen hfilled
  have h3 : sliceFrom P s = P := by
    obtain ⟨rows, cols, data⟩ := P
    simp only [sliceFrom, Panel.mk.injEq]
    have hk : (rows.zip data).filter (fun pr => keepFrom s pr.1) =
        rows.zip data := by
      apply List.filter_eq_self.mpr
      intro pr hpr
      exact hstart pr.1 (List.of_mem_zip hpr).1
    rw [hk]
    refine ⟨?_, trivial, ?_⟩
    · exact List.map_fst_zip rows data (le_of_eq hlen.symm)
    · exact List.map_snd_zip rows data (le_of_eq hlen)
  have h4 : reindexCols P u = P := by
    obtain ⟨rows, cols, data⟩ := P
    simp only at hcols
    subst hcols
    simp only [reindexCols, Panel.mk.injEq]
    refine ⟨trivial, trivial, ?_⟩
    exact (List.map_congr_left (fun row hr =>
      lookupByKey_map_self cols row none hcnd (hrowlen row hr))).trans
      (List.map_id data)
  have hu' : (if u.isEmpty then stocks else u) = u := by
    cases u
    · exact absurd rfl hu
    · rfl
  calc conformDf cal stocks P true s e u
      = reindexCols (sliceFrom (ffillPanel (reindexRows P
          ((selectDates cal (some (minimumD P.rows)) e).dropLast))) s)
        (if u.isEmpty then stocks else u) := rfl
    _ = P := by rw [haligned, h1, h2, h3, hu', h4]

/-- Witness for C6: the aligned, fully-filled panel on rows [1,2,3] of
calendar [1,2,3,4] is returned unchanged. -/
theorem conformDf_idempotent_witness :
    conformDf [1, 2, 3, 4] ["B"]
        ⟨[1, 2, 3], ["A"], [[some 1], [some 2], [some 3]]⟩ true (some 1)
        (some 4) ["A"] =
      ⟨[1, 2, 3], ["A"], [[some 1], [some 2], [some 3]]⟩ :=
  conformDf_idempotent [1, 2, 3, 4] ["B"]
    ⟨[1, 2, 3], ["A"], [[some 1], [some 2], [some 3]]⟩ (some 1) (some 4)
    ["A"] (by decide) (by decide) (by decide) (by decide) (by decide)
    (by decide) (by decide) (by decide) (by decide)

end AShareData
